import Mathlib

/-!
Verification development for the Psema ECS core
(`src/World.js`, `src/MapOfSets.js`).

The JavaScript core is shallowly embedded: every definition below mirrors a
function of the source, with JS numbers modelled as rationals (`ℚ`), JS
`Set`s as insertion-ordered duplicate-free lists, JS `Map`s as association
lists (insertion order = list order), and entities identified by a numeric
id standing for JS object identity.  Fallible operations return
`Except String _` (the string is the thrown error) or carry an
`Option String` component when the source mutates state before throwing.
-/

namespace Psema

/-- A JavaScript runtime value, as far as the core manipulates values:
`undef`/`null`/numbers/strings/booleans, the unique sentinel symbol
`ComponentType.tag` (`World.js` line 74), mutable objects identified by an
id, and zero-argument functions.  A function value is represented by the
value it returns when called (`value()`), which is all the core ever does
with a callable (`World.js` line 286). -/
inductive JSValue where
  | undef : JSValue
  | null : JSValue
  | num : ℚ → JSValue
  | str : String → JSValue
  | bool : Bool → JSValue
  | tagSym : JSValue
  | obj : ℕ → JSValue
  | func : JSValue → JSValue
deriving DecidableEq, Repr

/-- `typeof value === "function"` (`World.js` line 286). -/
def JSValue.isFunction : JSValue → Bool
  | .func _ => true
  | _ => false

/-- `defaultValue !== null && typeof defaultValue === "object"`
(`World.js` line 86): only `obj` values are non-null objects here
(functions have `typeof` "function", `null` is excluded explicitly). -/
def JSValue.isNonNullObject : JSValue → Bool
  | .obj _ => true
  | _ => false

/-- `String.prototype.split(",")`: cut the character list at every comma
(structurally recursive so that concrete runs reduce in the kernel). -/
def splitCommaAux : List Char → List Char → List String
  | [], acc => [String.mk acc.reverse]
  | c :: cs, acc =>
    if c = ',' then String.mk acc.reverse :: splitCommaAux cs []
    else splitCommaAux cs (c :: acc)

/-- `queryKey.split(",")` (`World.js` lines 84 and 264). -/
def splitOnComma (s : String) : List String := splitCommaAux s.toList []

/-- Code-unit comparison of two strings, as JS `Array.prototype.sort`'s
default comparator orders them (codepoint order; identical to UTF-16
order on the basic-multilingual-plane names used here). -/
def charListLe : List Char → List Char → Bool
  | [], _ => true
  | _ :: _, [] => false
  | a :: as, b :: bs =>
    if a.toNat < b.toNat then true
    else if b.toNat < a.toNat then false
    else charListLe as bs

/-- String order for the canonical query key. -/
def strLe (a b : String) : Bool := charListLe a.toList b.toList

/-- Stable insertion into an ascending list under `strLe`. -/
def orderedInsertStr (a : String) : List String → List String
  | [] => [a]
  | b :: bs => if strLe a b then a :: b :: bs else b :: orderedInsertStr a bs

/-- `key.sort()` (`World.js` line 103): the component names in ascending
default (string) sort order. -/
def sortNames : List String → List String
  | [] => []
  | a :: as => orderedInsertStr a (sortNames as)

/-- Entities are JS objects; we identify each by a numeric id. -/
abbrev EntityId := ℕ

/-- A JS `Set` of entities: insertion-ordered list without duplicates.
`Set.prototype.add` appends when absent. -/
def setAdd (l : List EntityId) (v : EntityId) : List EntityId :=
  if v ∈ l then l else l ++ [v]

/-- `MapOfSets` (`src/MapOfSets.js`): a `Map` from string keys to `Set`s of
entities, as an association list in insertion order.  (The source keys the
by-component-type index by `ComponentType` objects; since registered
component types have globally unique names — enforced by the registry —
we key by the name string throughout.) -/
abbrev MOS := List (String × List EntityId)

/-- `MapOfSets.get(key)` (`MapOfSets.js` lines 23‑27): the stored set, or
the shared `emptySet` when the key is absent. -/
def MOS.get (m : MOS) (k : String) : List EntityId :=
  match m.find? (fun p => p.1 == k) with
  | some p => p.2
  | none => []

/-- `MapOfSets.set(key, value)` (`MapOfSets.js` lines 12‑21): add `value`
to the set at `key`, creating the (appended) entry if absent. -/
def MOS.set (m : MOS) (k : String) (v : EntityId) : MOS :=
  match m with
  | [] => [(k, [v])]
  | (k', s) :: rest =>
    if k' = k then (k', setAdd s v) :: rest
    else (k', s) :: MOS.set rest k v

/-- `MapOfSets.delete(key, value)` (`MapOfSets.js` lines 29‑37): remove
`value` from the set at `key`; when the set becomes empty the entry itself
is removed. -/
def MOS.delete (m : MOS) (k : String) (v : EntityId) : MOS :=
  match m with
  | [] => []
  | (k', s) :: rest =>
    if k' = k then
      if v ∈ s then
        let s' := s.erase v
        if s' = [] then rest else (k', s') :: rest
      else (k', s) :: rest
    else (k', s) :: MOS.delete rest k v

/-- A registered component type: its unique `name` and resolved
`defaultValue` (`World.js` lines 87‑88; an `undefined` default has already
been replaced by the `tagSym` sentinel at construction). -/
structure CompType where
  name : String
  defaultValue : JSValue
deriving DecidableEq, Repr

/-- Truthiness of the property access `ComponentType[name]`
(`World.js` line 83).  The class object carries, besides the registered
component types (stored as static properties, all objects hence truthy),
its own static `tag` symbol (line 74) and the built-in function-object
properties `name` (the string "ComponentType"), `length` (3) and
`prototype` (an object) — all truthy.  (The prototype chain supplies
further inherited properties such as `call`; the model lists the ones the
claims exercise, which only adds to the set of colliding names.) -/
def componentTypeLookup (registry : List String) (n : String) : Bool :=
  n == "tag" || n == "name" || n == "length" || n == "prototype" ||
    registry.contains n

/-- `new ComponentType(name, defaultValue)` (`World.js` lines 81‑90) on a
registry holding the already-registered names, in order.  Names are
modelled as strings, so the `typeof name !== "string"` guard passes. -/
def componentTypeNew (registry : List String) (nm : String)
    (defaultValue : JSValue) : Except String (List String × CompType) :=
  if componentTypeLookup registry nm then
    .error ("Component type " ++ nm ++ " already exists.")
  else if (splitOnComma nm).length > 1 then
    .error "Illegal character in Component name."
  else if defaultValue.isNonNullObject then
    .error "Default value cannot be object. Make it a constructor function instead."
  else
    .ok (registry ++ [nm],
      { name := nm
        defaultValue := if defaultValue = .undef then .tagSym else defaultValue })

/-- Per-entity state (`World.js` lines 244‑254): the optional `name`, the
`components` map (keyed by component type, i.e. by its unique name) and
the `componentNames` set. -/
structure EntityState where
  name : Option String
  components : List (String × JSValue)
  componentNames : List String
deriving DecidableEq, Repr

/-- `Map.prototype.set` on the `components` map: replace in place or
append. -/
def mapSet (m : List (String × JSValue)) (k : String) (v : JSValue) :
    List (String × JSValue) :=
  match m with
  | [] => [(k, v)]
  | (k', v') :: rest =>
    if k' = k then (k', v) :: rest else (k', v') :: mapSet rest k v

/-- `Map.prototype.delete` on the `components` map: the updated map and
whether the key was present. -/
def mapDelete (m : List (String × JSValue)) (k : String) :
    List (String × JSValue) × Bool :=
  match m with
  | [] => ([], false)
  | (k', v') :: rest =>
    if k' = k then (rest, true)
    else
      let r := mapDelete rest k
      ((k', v') :: r.1, r.2)

/-- The cached-query bookkeeping record `lbrace list, queries rbrace`
(`World.js` line 109): the component list and the reference count. -/
structure CachedQuery where
  list : List String
  queries : Int
deriving DecidableEq, Repr

/-- The world state (`World.js` lines 59‑70) restricted to the data the
embedded operations touch.  `pool` holds every entity object ever created
(JS objects outlive their removal from `world.entities`, and index sets
keep referencing them). -/
structure World where
  entities : List EntityId
  entitiesByName : MOS
  entitiesByComponentType : MOS
  queries : MOS
  cachedQueries : List (String × CachedQuery)
  pool : List (EntityId × EntityState)
deriving DecidableEq, Repr

/-- `new World(...)`, state part (`World.js` lines 59‑70). -/
def World.empty : World :=
  { entities := [], entitiesByName := [], entitiesByComponentType := []
    queries := [], cachedQueries := [], pool := [] }

/-- Dereference an entity id in the pool (the JS object itself). -/
def World.getEntity (w : World) (e : EntityId) : EntityState :=
  match w.pool.find? (fun p => p.1 == e) with
  | some p => p.2
  | none => { name := none, components := [], componentNames := [] }

/-- Replace an entity object's state in the pool (JS mutation of the
object's fields). -/
def World.putEntity (w : World) (e : EntityId) (st : EntityState) : World :=
  { w with pool := w.pool.map (fun p => if p.1 == e then (e, st) else p) }

/-- `Entity.refreshQuery(queryKey)` (`World.js` lines 262‑276): split the
key on commas, test whether the entity's `componentNames` contains every
component name, and add it to (resp. remove it from) the query's set in
`world.queries` accordingly. -/
def World.refreshQuery (w : World) (e : EntityId) (queryKey : String) : World :=
  let parts := splitOnComma queryKey
  let belongInQuery := parts.all (fun n => (w.getEntity e).componentNames.contains n)
  if belongInQuery then
    { w with queries := MOS.set w.queries (String.intercalate "," parts) e }
  else
    { w with queries := MOS.delete w.queries (String.intercalate "," parts) e }

/-- `Entity.refreshQueries()` (`World.js` lines 256‑260): refresh this
entity against every currently cached query key, in map order
(`refreshQuery` never touches `cachedQueries`, so folding over the initial
key list is exact). -/
def World.refreshQueries (w : World) (e : EntityId) : World :=
  w.cachedQueries.foldl (fun acc p => acc.refreshQuery e p.1) w

/-- `new Entity(name)` (`World.js` lines 244‑254) with a fresh object id:
validates the name, registers the entity in `world.entities` and — when
named — in the by-name index, and initialises empty component storage.
A JS caller passing no argument is `none`; `some ""` throws. -/
def World.newEntity (w : World) (name : Option String) :
    Except String (World × EntityId) :=
  match name with
  | some n =>
    if n = "" then .error "TypeError: name must be non empty string."
    else
      let e := w.pool.length
      .ok ({ w with
              entities := setAdd w.entities e
              entitiesByName := MOS.set w.entitiesByName n e
              pool := w.pool ++ [(e, { name := some n, components := [], componentNames := [] })] }, e)
  | none =>
    let e := w.pool.length
    .ok ({ w with
            entities := setAdd w.entities e
            pool := w.pool ++ [(e, { name := none, components := [], componentNames := [] })] }, e)

/-- `Entity.die()` (`World.js` lines 278‑280, via `World._removeEntity`,
lines 21‑24): remove the entity from `world.entities` and from the by-name
index — and from nothing else.  An unnamed entity's
`entitiesByName.delete(undefined, entity)` finds no entry and is a no-op. -/
def World.die (w : World) (e : EntityId) : World :=
  let w' := { w with entities := w.entities.erase e }
  match (w.getEntity e).name with
  | some n => { w' with entitiesByName := MOS.delete w'.entitiesByName n e }
  | none => w'

/-- `Entity.addComponent(componentType, value)` (`World.js` lines
282‑295).  `value = none` models a call with `arguments.length === 1`
(line 285 then substitutes the type's default); a callable value — from
either origin — is invoked and its result stored (line 286).  Returns the
updated world and the boolean result. -/
def World.addComponent (w : World) (e : EntityId) (ct : CompType)
    (value : Option JSValue) : World × Bool :=
  let st := w.getEntity e
  if (st.components.find? (fun p => p.1 == ct.name)).isSome then (w, false)
  else
    let v0 := match value with
      | none => ct.defaultValue
      | some v => v
    let v1 := match v0 with
      | .func r => r
      | v => v
    let st' := { st with
      components := mapSet st.components ct.name v1
      componentNames := if st.componentNames.contains ct.name then
          st.componentNames else st.componentNames ++ [ct.name] }
    let w1 := w.putEntity e st'
    let w2 := { w1 with
      entitiesByComponentType := MOS.set w1.entitiesByComponentType ct.name e }
    (w2.refreshQueries e, true)

/-- `Entity.deleteComponent(componentType)` (`World.js` lines 297‑305). -/
def World.deleteComponent (w : World) (e : EntityId) (ct : CompType) :
    World × Bool :=
  let st := w.getEntity e
  let del := mapDelete st.components ct.name
  if ¬ del.2 then (w, false)
  else
    let st' := { st with
      components := del.1
      componentNames := st.componentNames.erase ct.name }
    let w1 := w.putEntity e st'
    let w2 := { w1 with
      entitiesByComponentType := MOS.delete w1.entitiesByComponentType ct.name e }
    (w2.refreshQueries e, true)

/-- `Entity.hasComponent(componentType)` (`World.js` lines 307‑309). -/
def World.hasComponent (w : World) (e : EntityId) (ct : CompType) : Bool :=
  ((w.getEntity e).components.find? (fun p => p.1 == ct.name)).isSome

/-- `Entity.setComponent(componentType, newValue)` (`World.js` lines
315‑320).  When the entity lacks the component, line 316 returns `false`.
Otherwise control reaches line 317, `if (this.getComponent(componentType)
=== ComponentType.tag) return false;` — but the identifier `ComponentType`
is unresolvable there: `this.ComponentType = class ComponentType ...` is a
named class *expression*, whose name is in scope only inside its own class
body, and every other use site says `world.ComponentType` (lines 96, 180,
283).  Evaluating line 317 therefore throws a `ReferenceError`, so the
present-component path never completes. -/
def World.setComponent (w : World) (e : EntityId) (ct : CompType)
    (_newValue : JSValue) : Except String (World × Bool) :=
  if ¬ w.hasComponent e ct then .ok (w, false)
  else .error "ReferenceError: ComponentType is not defined"

/-- A `Query` handle (`World.js` lines 93‑140): the component names it was
built from and, for multi-type queries only, the canonical cache `key`. -/
structure QueryHandle where
  components : List String
  key : Option String
deriving DecidableEq, Repr

/-- `new Query(components)` (`World.js` lines 95‑118): canonical key =
sorted comma-joined names; multi-type queries either bump the existing
cache entry's reference count or create a fresh `(list, queries := 1)`
entry and seed its set by refreshing every existing entity; single-type
queries store no key. -/
def World.newQuery (w : World) (comps : List CompType) :
    World × QueryHandle :=
  let names := comps.map (fun c => c.name)
  let key := String.intercalate "," (sortNames names)
  if comps.length > 1 then
    match w.cachedQueries.find? (fun p => p.1 == key) with
    | some _ =>
      ({ w with cachedQueries := w.cachedQueries.map (fun p =>
          if p.1 == key then (p.1, { p.2 with queries := p.2.queries + 1 }) else p) },
       { components := names, key := some key })
    | none =>
      let w1 := { w with cachedQueries :=
        w.cachedQueries ++ [(key, { list := names, queries := 1 })] }
      let w2 := w.entities.foldl (fun acc e => acc.refreshQuery e key) w1
      (w2, { components := names, key := some key })
  else
    (w, { components := names, key := none })

/-- The `Query` accessor `get entities()` (`World.js` lines 120‑126).  A
multi-type handle reads the cached set `world.queries.get(this.key)`.  A
single-type handle executes
`return world.entitiesByComponentType(this.components[0]);` — a *call* of
`world.entitiesByComponentType`, which is a `MapOfSets` instance and not a
function, so the access throws a `TypeError` instead of reading the
by-type index. -/
def World.queryEntities (w : World) (h : QueryHandle) :
    Except String (List EntityId) :=
  match h.key with
  | some k => .ok (MOS.get w.queries k)
  | none => .error "TypeError: world.entitiesByComponentType is not a function"

/-- `Query.destroy()` (`World.js` lines 128‑138).  The reference count is
decremented in place; when it drops below 1 the cache entry is deleted and
the source then calls `world.queries.clearSet(this.key)` — a method
`MapOfSets` does not define (`MapOfSets.js` defines only `set`, `get`,
`delete`), so a `TypeError` is thrown at that point: the query's entity
set survives in `world.queries` and `delete this.key` is never reached.
The result is the post-mutation world, the (possibly updated) handle, and
`some errorMessage` when the call threw. -/
def World.queryDestroy (w : World) (h : QueryHandle) :
    World × QueryHandle × Option String :=
  match h.key with
  | none => (w, h, none)
  | some k =>
    match w.cachedQueries.find? (fun p => p.1 == k) with
    | none => (w, h, some "TypeError: cannot read properties of undefined")
    | some entry =>
      let n := entry.2.queries - 1
      if n < 1 then
        ({ w with cachedQueries := w.cachedQueries.filter (fun p => ¬ p.1 == k) },
         h, some "TypeError: world.queries.clearSet is not a function")
      else
        ({ w with cachedQueries := w.cachedQueries.map (fun p =>
            if p.1 == k then (p.1, { p.2 with queries := n }) else p) },
         { h with key := none }, none)

/-- `System._determineAfterPriority(after)` (`World.js` lines 144‑159),
with the referenced systems represented by their priorities.  The
single-`System` branch (lines 145‑148) applies the very same update once,
so it is the singleton-list case; a falsy `after` is the empty list.
Starting from `undefined` (`none`), each referenced priority `p` replaces
the accumulator by `p - 0.1` whenever the accumulator is undefined or
`>= p`. -/
def determineAfterPriority (after : List ℚ) (acc : Option ℚ) : Option ℚ :=
  match after with
  | [] => acc
  | p :: rest =>
    determineAfterPriority rest
      (match acc with
       | none => some (p - 1/10)
       | some a => if a ≥ p then some (p - 1/10) else some a)

/-- `System._determineBeforePriority(before)` (`World.js` lines 161‑176):
mirror image of `determineAfterPriority`, replacing the accumulator by
`p + 0.1` whenever it is undefined or `<= p`. -/
def determineBeforePriority (before : List ℚ) (acc : Option ℚ) : Option ℚ :=
  match before with
  | [] => acc
  | p :: rest =>
    determineBeforePriority rest
      (match acc with
       | none => some (p + 1/10)
       | some b => if b ≤ p then some (p + 1/10) else some b)

/-- JS truthiness of a possibly-undefined number: `undefined` and `0` are
falsy. -/
def jsTruthy : Option ℚ → Bool
  | none => false
  | some q => q != 0

/-- The priority computed by `new System(...)` from a placement constraint
object (`World.js` lines 195‑214): derive both bounds, and combine them
with the source's truthiness tests `if (afterPriority && beforePriority)`
etc.; the conflict check throws inside the both-truthy branch only. -/
def systemPriority (after before : List ℚ) : Except String ℚ :=
  let a := determineAfterPriority after none
  let b := determineBeforePriority before none
  if jsTruthy a && jsTruthy b then
    let av := a.getD 0
    let bv := b.getD 0
    if av > bv then
      .error "Check your system priority, because something is wrong."
    else .ok ((av + bv) * (1/2))
  else if jsTruthy a then .ok (a.getD 0)
  else if jsTruthy b then .ok (b.getD 0)
  else .ok 0

/-- A system, identified (for JS object identity) by `id`, with its
numeric `priority`. -/
structure Sys where
  id : ℕ
  priority : ℚ
deriving DecidableEq, Repr

/-- Scheduler state: `world.systems` (the ordered list) plus the set of
ids whose `_active` flag is `true`. -/
structure Sched where
  systems : List Sys
  active : List ℕ
deriving DecidableEq, Repr

/-- The tail scan of `System.activate` (`World.js` lines 222‑226) on the
*reversed* system list: walk from the last element towards the front,
moving the insertion index down past every system of priority `> p`, and
stop at the first system of priority `<= p`. -/
def insertIndexRev (p : ℚ) : List Sys → ℕ
  | [] => 0
  | x :: xs => if x.priority ≤ p then xs.length + 1 else insertIndexRev p xs

/-- The insertion index computed by `System.activate`'s downward loop
(`World.js` lines 222‑226). -/
def insertIndex (l : List Sys) (p : ℚ) : ℕ :=
  insertIndexRev p l.reverse

/-- `Array.prototype.splice(idx, 0, s)`: insert `s` at position `idx`
(appending when `idx` is past the end). -/
def spliceInsert : ℕ → Sys → List Sys → List Sys
  | 0, s, l => s :: l
  | _ + 1, s, [] => [s]
  | n + 1, s, x :: xs => x :: spliceInsert n s xs

/-- `System.activate()` (`World.js` lines 219‑230): `false` and no change
when already active; otherwise splice into the list at the tail-scanned
index, set the flag, and return `true`. -/
def Sched.activate (st : Sched) (s : Sys) : Sched × Bool :=
  if s.id ∈ st.active then (st, false)
  else
    ({ systems := spliceInsert (insertIndex st.systems s.priority) s st.systems
       active := s.id :: st.active }, true)

/-- `System.deactivate()` (`World.js` lines 232‑240): clear the flag and
splice out the first list entry that is this system (identity match). -/
def Sched.deactivate (st : Sched) (s : Sys) : Sched :=
  { systems := st.systems.eraseP (fun x => x.id == s.id)
    active := st.active.erase s.id }

/-- An observable scheduler operation. -/
inductive SchedOp where
  | act : Sys → SchedOp
  | deact : Sys → SchedOp
deriving DecidableEq, Repr

/-- Apply one scheduler operation. -/
def Sched.step (st : Sched) : SchedOp → Sched
  | .act s => (st.activate s).1
  | .deact s => st.deactivate s

/-- Run a sequence of activate/deactivate operations from the empty
scheduler (`world.systems = []`). -/
def Sched.run (ops : List SchedOp) : Sched :=
  ops.foldl Sched.step { systems := [], active := [] }

/-- The ascending-priority order on systems. -/
def sysLe (a b : Sys) : Prop := a.priority ≤ b.priority

/-- `World._calculus(deltaT)` (`World.js` lines 33‑43) as the trace of
`calculus` invocations it performs: systems are given as the list of
"defines a `calculus` method" flags in scheduler order, and each
invocation is recorded as (system index, sub-step dt).  `iterations =
Math.ceil(deltaT / max_dt)`, `dt = deltaT / iterations`, outer loop over
iterations, inner loop over systems. -/
def calculusTrace (max_dt deltaT : ℚ) (systems : List Bool) :
    List (ℕ × ℚ) :=
  let iterations : ℤ := ⌈deltaT / max_dt⌉
  let dt : ℚ := deltaT / (iterations : ℚ)
  (List.range iterations.toNat).flatMap
    (fun _ => (systems.enum.filter (fun p => p.2)).map (fun p => (p.1, dt)))

/-- One tick of the update driver's delta-time handling (`World.js` lines
334‑343): given the real elapsed `deltaT` (seconds), return the `deltaT`
actually passed to the phases and the recorded compression ratio
`usedDivRealDeltaT` (reset to 1 each tick, overwritten only when the
clamp fires). -/
def updateTickDelta (max_dt maxTimesBiggerThanMaxDt deltaT : ℚ) : ℚ × ℚ :=
  if deltaT > maxTimesBiggerThanMaxDt * max_dt then
    (maxTimesBiggerThanMaxDt * max_dt, (maxTimesBiggerThanMaxDt * max_dt) / deltaT)
  else (deltaT, 1)

/-- The draw driver's frame delta (`World.js` line 356):
`(drawNow - drawBefore) * 0.001 * usedDivRealDeltaT`. -/
def drawFrameDelta (drawNow drawBefore usedDivRealDeltaT : ℚ) : ℚ :=
  (drawNow - drawBefore) * (1/1000) * usedDivRealDeltaT

/-! Concrete component types and worlds used by the concrete runs below:
`new ComponentType("A")` and `new ComponentType("B")` (no default, so the
`tag` sentinel is stored), an unnamed entity `0` carrying first `A`, then
both `A` and `B`. -/

/-- The registered type `A` with no default value. -/
def ctA : CompType := { name := "A", defaultValue := .tagSym }

/-- The registered type `B` with no default value. -/
def ctB : CompType := { name := "B", defaultValue := .tagSym }

/-- `new Entity()` on a fresh world: the world and the entity id 0. -/
def demoPair : World × EntityId :=
  (World.empty.newEntity none).toOption.getD (World.empty, 0)

/-- The fresh world holding entity 0. -/
def demoW0 : World := demoPair.1

/-- The demo entity id. -/
def demoE : EntityId := demoPair.2

/-- Entity 0 after `addComponent(A)`. -/
def demoWA : World := (demoW0.addComponent demoE ctA none).1

/-- Entity 0 after `addComponent(A)` and `addComponent(B)`. -/
def demoWAB : World := (demoWA.addComponent demoE ctB none).1

/-- `new Query([A, B])` on the demo world: the cached multi-type query. -/
def c1Query : World × QueryHandle := demoWAB.newQuery [ctA, ctB]

/-- The demo world after the entity dies. -/
def c1After : World := c1Query.1.die demoE

/-- The single-type `new Query([A])` handle on the demo world (the world
is unchanged by a single-type query). -/
def c2Handle : QueryHandle := (demoWAB.newQuery [ctA]).2

/-- First `new Query([A, B])` for the cache-sharing run. -/
def c6Q1 : World × QueryHandle := demoWAB.newQuery [ctA, ctB]

/-- Second `new Query([B, A])` — same canonical key, cache hit. -/
def c6Q2 : World × QueryHandle := c6Q1.1.newQuery [ctB, ctA]

/-- A second entity (id 1) created after both queries exist. -/
def c6Pair : World × EntityId :=
  (c6Q2.1.newEntity none).toOption.getD (World.empty, 0)

/-- Entity 1 given components `A` and `B`, so it enters the shared cached
set. -/
def c6W : World :=
  ((c6Pair.1.addComponent c6Pair.2 ctA none).1.addComponent c6Pair.2 ctB none).1

/-- Destroying the first handle (refcount 2 → 1). -/
def c6D1 : World × QueryHandle × Option String := c6W.queryDestroy c6Q1.2

/-- Destroying the second handle (refcount 1 → 0). -/
def c6D2 : World × QueryHandle × Option String := c6D1.1.queryDestroy c6Q2.2

/-- C1: the claimed invariant — a cached query's set always equals the
live entities whose component names cover the query — is broken by
`Entity.die`.  Concretely: entity 0 holds `A` and `B` and the cached query
over both correctly contains it; after `die()` the entity is no longer
live (`world.entities` is empty), yet it is still reported by the query's
`entities` accessor and still sits in the by-type index for `A` and `B`,
because `die` (`World.js` lines 278‑280 and 21‑24) touches only
`world.entities` and the by-name index. -/
theorem claim1_die_leaves_query_and_type_indices :
    c1Query.1.queryEntities c1Query.2 = .ok [demoE]
    ∧ c1Query.1.entities = [demoE]
    ∧ c1After.entities = []
    ∧ c1After.queryEntities c1Query.2 = .ok [demoE]
    ∧ MOS.get c1After.entitiesByComponentType "A" = [demoE]
    ∧ MOS.get c1After.entitiesByComponentType "B" = [demoE] :=
  ⟨rfl, rfl, rfl, rfl, rfl, rfl⟩

/-- C2: reading a single-type query's `entities` accessor always throws.
Entity 0 does hold `A` and the by-type index stores the live set `[0]`
for `"A"`, but the accessor (`World.js` line 124) *calls*
`world.entitiesByComponentType` — a `MapOfSets` instance, not a function —
instead of calling its `get` method, so the access raises a `TypeError`
rather than returning that set. -/
theorem claim2_single_type_query_access_throws :
    (demoWAB.newQuery [ctA]).1 = demoWAB
    ∧ c2Handle.key = none
    ∧ MOS.get demoWAB.entitiesByComponentType "A" = [demoE]
    ∧ demoWAB.queryEntities c2Handle
        = .error "TypeError: world.entitiesByComponentType is not a function" :=
  ⟨rfl, rfl, rfl, rfl⟩

/-- C6: cache sharing works as claimed — the second `new Query` over the
same component pair bumps the refcount to 2 and shares the key, a fresh
entry is seeded from the existing entities (entity 0 is found), an entity
added later is visible through both handles, and destroying one handle
keeps the cached set alive at refcount 1 — but destroying the *last*
handle does not free the entity set: the cache entry is deleted and then
`Query.destroy` (`World.js` line 134) calls `world.queries.clearSet`, a
method `MapOfSets` never defines, so a `TypeError` is thrown and the set
`["A,B" ↦ [0, 1]]` survives in `world.queries`. -/
theorem claim6_query_cache_sharing_destroy_throws :
    c6Q1.2.key = some "A,B"
    ∧ c6Q1.1.queryEntities c6Q1.2 = .ok [demoE]
    ∧ c6Q2.2.key = some "A,B"
    ∧ c6Q2.1.cachedQueries = [("A,B", { list := ["A", "B"], queries := 2 })]
    ∧ c6W.queryEntities c6Q1.2 = .ok [0, 1]
    ∧ c6W.queryEntities c6Q2.2 = .ok [0, 1]
    ∧ c6D1.2.2 = none
    ∧ c6D1.1.cachedQueries = [("A,B", { list := ["A", "B"], queries := 1 })]
    ∧ c6D1.1.queryEntities c6Q2.2 = .ok [0, 1]
    ∧ c6D2.2.2 = some "TypeError: world.queries.clearSet is not a function"
    ∧ c6D2.1.cachedQueries = []
    ∧ MOS.get c6D2.1.queries "A,B" = [0, 1] :=
  ⟨rfl, rfl, rfl, rfl, rfl, rfl, rfl, rfl, rfl, rfl, rfl, rfl⟩

/-- C9: `setComponent` does return `false` without raising when the
entity lacks the component, but on an entity that *has* the component it
throws a `ReferenceError` instead of storing the new value: line 317 of
`World.js` reads `ComponentType.tag` through an identifier that is not in
scope there (see `World.setComponent`).  Entity 0 holds `A` (with the
sentinel value) but not `B`. -/
theorem claim9_setComponent_throws :
    demoWA.setComponent demoE ctA (.num 5)
        = .error "ReferenceError: ComponentType is not defined"
    ∧ demoWA.setComponent demoE ctB (.num 5) = .ok (demoWA, false)
    ∧ demoWA.hasComponent demoE ctA = true :=
  ⟨rfl, rfl, rfl⟩

/-- C8: on every tick, a `deltaT` above `maxTimesBiggerThanMaxDt × max_dt`
is clamped to exactly that ceiling with compression ratio clamped/actual
recorded; otherwise `deltaT` passes through with ratio 1; the draw driver
multiplies its raw frame delta by the recorded ratio; and the spec's
example (`maxTimesBiggerThanMaxDt = 10`, `max_dt = 0.02`, `deltaT = 5`)
clamps to `0.2` with ratio `0.04 = 0.2 / 5`. -/
theorem claim8_clamping (max_dt mx deltaT tNow tBefore : ℚ) :
    (deltaT > mx * max_dt →
      updateTickDelta max_dt mx deltaT = (mx * max_dt, (mx * max_dt) / deltaT))
    ∧ (deltaT ≤ mx * max_dt → updateTickDelta max_dt mx deltaT = (deltaT, 1))
    ∧ drawFrameDelta tNow tBefore (updateTickDelta max_dt mx deltaT).2
        = ((tNow - tBefore) * (1/1000)) * (updateTickDelta max_dt mx deltaT).2
    ∧ updateTickDelta (1/50) 10 5 = (1/5, 1/25)
    ∧ ((1:ℚ)/5) / 5 = 1/25 := by
  refine ⟨fun h => ?_, fun h => ?_, rfl, by norm_num [updateTickDelta], by norm_num⟩
  · simp [updateTickDelta, h]
  · simp [updateTickDelta, not_lt.mpr h]

/-- Closed instance of the clamping theorem at the spec's example tick. -/
theorem claim8_witness :
    ((5:ℚ) > 10 * (1/50))
    ∧ updateTickDelta (1/50) 10 5 = (10 * (1/50), (10 * (1/50)) / 5) :=
  ⟨by norm_num, (claim8_clamping (1/50) 10 5 0 0).1 (by norm_num)⟩

/-- C10: because component types register themselves as static properties
on the `ComponentType` class object, any name that collides with an
already-truthy property of that object — the built-ins `name`, `length`,
`prototype` and the static `tag` symbol — makes `ComponentType[name]`
truthy, so the constructor throws the duplicate-name `TypeError` even
when no component type of that name was ever registered: such names can
never be defined, whatever the registry contains. -/
theorem claim10_reserved_names (registry : List String) (d : JSValue)
    (nm : String)
    (h : nm ∈ (["name", "length", "prototype", "tag"] : List String))
    (hreg : registry.contains nm = false) :
    componentTypeNew registry nm d
      = .error ("Component type " ++ nm ++ " already exists.") := by
  simp only [List.mem_cons, List.not_mem_nil, or_false] at h
  rcases h with h | h | h | h <;> subst h <;> rfl

/-- Closed instance: `new ComponentType("name")` on an empty registry
throws the duplicate-name error. -/
theorem claim10_witness :
    componentTypeNew [] "name" .null
      = .error "Component type name already exists." :=
  claim10_reserved_names [] .null "name" (by simp) (by rfl)

/-- `refreshQuery` only rewrites `world.queries`; the entity pool is
untouched. -/
theorem refreshQuery_pool (w : World) (e : EntityId) (k : String) :
    (w.refreshQuery e k).pool = w.pool := by
  unfold World.refreshQuery
  dsimp only
  split <;> rfl

/-- Folding `refreshQuery` over any key list leaves the pool untouched. -/
theorem foldl_refreshQuery_pool (l : List (String × CachedQuery))
    (e : EntityId) :
    ∀ w : World, (l.foldl (fun acc p => acc.refreshQuery e p.1) w).pool = w.pool := by
  induction l with
  | nil => intro w; rfl
  | cons p rest ih =>
    intro w
    simpa [List.foldl_cons, ih] using refreshQuery_pool w e p.1

/-- `refreshQueries` leaves the pool untouched. -/
theorem refreshQueries_pool (w : World) (e : EntityId) :
    (w.refreshQueries e).pool = w.pool :=
  foldl_refreshQuery_pool w.cachedQueries e w

/-- Rewriting the entry for `e` in a pool that contains `e` makes the
first `e`-lookup return the new state. -/
theorem find?_map_update (l : List (EntityId × EntityState)) (e : EntityId)
    (st : EntityState) :
    (l.find? (fun p => p.1 == e)).isSome = true →
    (l.map (fun p => if p.1 == e then (e, st) else p)).find? (fun p => p.1 == e)
      = some (e, st) := by
  induction l with
  | nil => intro h; simp [List.find?] at h
  | cons q rest ih =>
    intro h
    by_cases hq : q.1 = e
    · have hq' : (q.1 == e) = true := by simpa using hq
      simp [List.find?, hq']
    · have hq' : (q.1 == e) = false := by simpa using hq
      simp only [List.find?_cons, hq', cond_false] at h
      simp only [List.map_cons, List.find?_cons, hq', Bool.false_eq_true,
        if_false, cond_false]
      exact ih h

/-- Reading back an entity that exists in the pool after `putEntity`
yields the written state. -/
theorem getEntity_putEntity (w : World) (e : EntityId) (st : EntityState)
    (hpool : (w.pool.find? (fun p => p.1 == e)).isSome = true) :
    (w.putEntity e st).getEntity e = st := by
  unfold World.putEntity World.getEntity
  dsimp only
  rw [find?_map_update w.pool e st hpool]

/-- Entities read through a world whose pool is unchanged agree. -/
theorem getEntity_congr_pool (w w' : World) (e : EntityId)
    (h : w'.pool = w.pool) : w'.getEntity e = w.getEntity e := by
  unfold World.getEntity
  rw [h]

/-- The candidate value `addComponent` resolves before storing: the
explicit argument if one was passed, else the type's default, and a
callable candidate is replaced by its call result. -/
def resolvedComponentValue (ct : CompType) (value : Option JSValue) : JSValue :=
  match (match value with | none => ct.defaultValue | some v => v) with
  | .func r => r
  | v => v

/-- C5 (amended): `addComponent(entity, type, value?)` returns `false` and
leaves the world unchanged when the entity already has the type;
otherwise it resolves the candidate value — the explicit `value` argument
when one is given, else the type's default — then, if the *candidate* is
callable (whichever origin it came from), invokes it and stores the call
result, and returns `true`.  (The original claim restricted the
callable-invocation step to the default; the code applies it to an
explicit callable argument too — see `claim5_counterexample`.) -/
theorem claim5_addComponent (w : World) (e : EntityId) (ct : CompType)
    (value : Option JSValue) :
    (w.hasComponent e ct = true → w.addComponent e ct value = (w, false))
    ∧ (w.hasComponent e ct = false →
        (w.pool.find? (fun p => p.1 == e)).isSome = true →
        (w.addComponent e ct value).2 = true
        ∧ ((w.addComponent e ct value).1.getEntity e).components
            = mapSet (w.getEntity e).components ct.name
                (resolvedComponentValue ct value)) := by
  constructor
  · intro h
    unfold World.hasComponent at h
    unfold World.addComponent
    dsimp only
    rw [h]
    rfl
  · intro h hp
    unfold World.hasComponent at h
    unfold World.addComponent
    dsimp only
    rw [h]
    simp only [Bool.false_eq_true, if_false]
    refine ⟨trivial, ?_⟩
    rw [getEntity_congr_pool _ _ e (refreshQueries_pool _ e)]
    simp only [World.getEntity, World.putEntity]
    rw [find?_map_update w.pool e _ hp]
    rfl

/-- The claim as frozen says an explicit `value` argument is stored as
given; but `addComponent` (`World.js` line 286) invokes *any* callable
value.  Concretely, adding `B` with the explicit argument
`() => null` stores `null`, not the function itself. -/
theorem claim5_counterexample :
    ((demoWA.addComponent demoE ctB (some (JSValue.func JSValue.null))).1.getEntity
        demoE).components
      = [("A", JSValue.tagSym), ("B", JSValue.null)]
    ∧ JSValue.null ≠ JSValue.func JSValue.null :=
  ⟨rfl, by decide⟩

/-- Closed instance of the amended `addComponent` theorem: adding `B`
(no explicit value) to entity 0, which lacks it, succeeds and stores the
resolved default. -/
theorem claim5_witness :
    (demoWA.addComponent demoE ctB none).2 = true
    ∧ ((demoWA.addComponent demoE ctB none).1.getEntity demoE).components
        = mapSet (demoWA.getEntity demoE).components ctB.name
            (resolvedComponentValue ctB none) :=
  (claim5_addComponent demoWA demoE ctB none).2 rfl rfl

/-- No invocation in the trace of a later sub-list of systems carries an
index smaller than the enumeration start. -/
theorem filter_map_enumFrom_lt (dt : ℚ) (l : List Bool) :
    ∀ t m : ℕ, m < t →
    ((((List.enumFrom t l).filter (fun p => p.2)).map
        (fun p => (p.1, dt))).filter (fun p => p.1 == m)) = [] := by
  induction l with
  | nil => intro t m _; rfl
  | cons b rest ih =>
    intro t m hm
    by_cases hb : b = true
    · subst hb
      have hne : (t == m) = false := by
        simp [Nat.ne_of_gt hm]
      simp only [List.enumFrom, List.filter_cons, List.map_cons,
        List.filter_cons, hne, Bool.false_eq_true, if_false, if_true]
      exact ih (t + 1) m (Nat.lt_succ_of_lt hm)
    · have hb' : b = false := by simpa using hb
      subst hb'
      simp only [List.enumFrom, List.filter_cons, Bool.false_eq_true, if_false]
      exact ih (t + 1) m (Nat.lt_succ_of_lt hm)

/-- Within one sub-step, system `j` is invoked exactly once when it
defines `calculus` (and never otherwise), with the sub-step `dt`. -/
theorem filter_map_enumFrom (dt : ℚ) (l : List Bool) :
    ∀ s j : ℕ,
    ((((List.enumFrom s l).filter (fun p => p.2)).map
        (fun p => (p.1, dt))).filter (fun p => p.1 == s + j))
      = if l.get? j = some true then [(s + j, dt)] else [] := by
  induction l with
  | nil => intro s j; simp
  | cons b rest ih =>
    intro s j
    cases j with
    | zero =>
      by_cases hb : b = true
      · subst hb
        have hs : (s == s + 0) = true := by simp
        simp only [List.enumFrom, List.filter_cons, if_true, List.map_cons,
          hs, List.get?]
        rw [filter_map_enumFrom_lt dt rest (s + 1) (s + 0) (by omega)]
        simp
      · have hb' : b = false := by simpa using hb
        subst hb'
        simp only [List.enumFrom, List.filter_cons, Bool.false_eq_true,
          if_false, List.get?]
        rw [filter_map_enumFrom_lt dt rest (s + 1) (s + 0) (by omega)]
        simp
    | succ j' =>
      have hrw : s + (j' + 1) = (s + 1) + j' := by omega
      by_cases hb : b = true
      · subst hb
        have hne : (s == s + (j' + 1)) = false := by simp
        simp only [List.enumFrom, List.filter_cons, if_true, List.map_cons,
          hne, Bool.false_eq_true, if_false, List.get?]
        rw [hrw]
        exact ih (s + 1) j'
      · have hb' : b = false := by simpa using hb
        subst hb'
        simp only [List.enumFrom, List.filter_cons, Bool.false_eq_true,
          if_false, List.get?]
        rw [hrw]
        exact ih (s + 1) j'

/-- Filtering a trace made of `m` identical blocks, each contributing one
matching entry, yields `m` copies of that entry. -/
theorem range_flatMap_filter (b : List (ℕ × ℚ)) (q : ℕ × ℚ → Bool)
    (x : ℕ × ℚ) (h : b.filter q = [x]) :
    ∀ m : ℕ,
    (((List.range m).flatMap (fun _ => b)).filter q) = List.replicate m x := by
  intro m
  induction m with
  | zero => rfl
  | succ m ih =>
    rw [List.range_succ, List.flatMap_append, List.filter_append, ih]
    simp [h, List.replicate_succ']

/-- C3: for any tick with `deltaT > 0` (and `max_dt > 0`), every system
defining `calculus` is invoked exactly `ceil(deltaT / max_dt)` times,
each invocation receiving the sub-step `deltaT / ceil(deltaT / max_dt)`,
and its sub-steps sum to `deltaT`; the loop is sub-step-outer /
systems-inner, as the two concrete traces show — in particular the spec
example `max_dt = 0.02`, `deltaT = 0.05` gives exactly 3 invocations of
`1/60 ≈ 0.01667` each. -/
theorem claim3_calculus_substepping (max_dt deltaT : ℚ) (systems : List Bool)
    (j : ℕ) (hmd : 0 < max_dt) (hdT : 0 < deltaT)
    (hj : systems.get? j = some true) :
    ((calculusTrace max_dt deltaT systems).filter (fun p => p.1 == j)
        = List.replicate (⌈deltaT / max_dt⌉).toNat
            (j, deltaT / ((⌈deltaT / max_dt⌉ : ℤ) : ℚ)))
    ∧ (((calculusTrace max_dt deltaT systems).filter
          (fun p => p.1 == j)).map Prod.snd).sum = deltaT
    ∧ calculusTrace (1/50) (1/20) [true]
        = [(0, 1/60), (0, 1/60), (0, 1/60)]
    ∧ calculusTrace (1/50) (1/20) [true, true]
        = [(0, 1/60), (1, 1/60), (0, 1/60), (1, 1/60), (0, 1/60), (1, 1/60)] := by
  have hceil : 0 < ⌈deltaT / max_dt⌉ := Int.ceil_pos.mpr (div_pos hdT hmd)
  have hfilter : (calculusTrace max_dt deltaT systems).filter (fun p => p.1 == j)
      = List.replicate (⌈deltaT / max_dt⌉).toNat
          (j, deltaT / ((⌈deltaT / max_dt⌉ : ℤ) : ℚ)) := by
    unfold calculusTrace
    dsimp only
    apply range_flatMap_filter
    have hblk := filter_map_enumFrom (deltaT / ((⌈deltaT / max_dt⌉ : ℤ) : ℚ))
      systems 0 j
    rw [Nat.zero_add, hj, if_pos rfl] at hblk
    exact hblk
  have hceil3 : (⌈(1/20 : ℚ) / (1/50)⌉ : ℤ) = 3 := by
    rw [show (1/20 : ℚ) / (1/50) = 5/2 by norm_num]
    rw [Int.ceil_eq_iff]
    norm_num
  have hex1 : calculusTrace (1/50) (1/20) [true]
      = [(0, 1/60), (0, 1/60), (0, 1/60)] := by
    unfold calculusTrace
    rw [hceil3]
    norm_num
    show ((List.range 3).flatMap fun _x => [(0, (1:ℚ) / 60)]) = _
    simp [List.range_succ]
  have hex2 : calculusTrace (1/50) (1/20) [true, true]
      = [(0, 1/60), (1, 1/60), (0, 1/60), (1, 1/60), (0, 1/60), (1, 1/60)] := by
    unfold calculusTrace
    rw [hceil3]
    norm_num
    show ((List.range 3).flatMap fun _x => [(0, (1:ℚ) / 60), (1, (1:ℚ) / 60)]) = _
    simp [List.range_succ]
  refine ⟨hfilter, ?_, hex1, hex2⟩
  rw [hfilter, List.map_replicate, List.sum_replicate]
  have hne : ((⌈deltaT / max_dt⌉ : ℤ) : ℚ) ≠ 0 := by
    exact_mod_cast (ne_of_gt hceil)
  have hcast : ((⌈deltaT / max_dt⌉.toNat : ℕ) : ℚ) = ((⌈deltaT / max_dt⌉ : ℤ) : ℚ) := by
    exact_mod_cast Int.toNat_of_nonneg hceil.le
  rw [nsmul_eq_mul, hcast, mul_div_cancel₀ _ hne]

/-- Closed instance of the sub-stepping theorem at the spec's example:
`max_dt = 1/50 = 0.02`, `deltaT = 1/20 = 0.05`, one system. -/
theorem claim3_witness :
    (calculusTrace (1/50) (1/20) [true]).filter (fun p => p.1 == 0)
        = List.replicate (⌈(1/20 : ℚ) / (1/50)⌉).toNat
            (0, (1/20 : ℚ) / ((⌈(1/20 : ℚ) / (1/50)⌉ : ℤ) : ℚ))
    ∧ (((calculusTrace (1/50) (1/20) [true]).filter
          (fun p => p.1 == 0)).map Prod.snd).sum = (1/20 : ℚ) :=
  ⟨(claim3_calculus_substepping (1/50) (1/20) [true] 0 (by norm_num)
      (by norm_num) rfl).1,
   (claim3_calculus_substepping (1/50) (1/20) [true] 0 (by norm_num)
      (by norm_num) rfl).2.1⟩

end Psema

namespace Psema

/-- Starting from a defined accumulator, the after-scan always produces a
value. -/
theorem dAP_isSome : ∀ (l : List ℚ) (a0 : ℚ),
    (determineAfterPriority l (some a0)).isSome = true := by
  intro l
  induction l with
  | nil => intro a0; rfl
  | cons p rest ih =>
    intro a0
    unfold determineAfterPriority
    by_cases h : a0 ≥ p <;> simp only [h, if_true, if_false] <;> apply ih

/-- The after-scan never increases the accumulator. -/
theorem dAP_le : ∀ (l : List ℚ) (a0 r : ℚ),
    determineAfterPriority l (some a0) = some r → r ≤ a0 := by
  intro l
  induction l with
  | nil =>
    intro a0 r h
    simp only [determineAfterPriority, Option.some_inj] at h
    exact le_of_eq h.symm
  | cons p rest ih =>
    intro a0 r h
    unfold determineAfterPriority at h
    by_cases hc : a0 ≥ p
    · simp only [hc, if_true] at h
      have := ih (p - 1/10) r h
      linarith
    · simp only [hc, if_false] at h
      exact ih a0 r h

/-- The after-scan result is strictly below every scanned priority. -/
theorem dAP_lt : ∀ (l : List ℚ) (a0 r : ℚ),
    determineAfterPriority l (some a0) = some r → ∀ q ∈ l, r < q := by
  intro l
  induction l with
  | nil => intro a0 r _ q hq; simp at hq
  | cons p rest ih =>
    intro a0 r h q hq
    unfold determineAfterPriority at h
    rcases List.mem_cons.mp hq with hq | hq
    · subst hq
      by_cases hc : a0 ≥ q
      · simp only [hc, if_true] at h
        have := dAP_le rest (q - 1/10) r h
        linarith
      · simp only [hc, if_false] at h
        have := dAP_le rest a0 r h
        push_neg at hc
        linarith
    · by_cases hc : a0 ≥ p
      · simp only [hc, if_true] at h
        exact ih (p - 1/10) r h q hq
      · simp only [hc, if_false] at h
        exact ih a0 r h q hq

/-- The after-scan result is either the start value or 0.1 below one of
the scanned priorities. -/
theorem dAP_form : ∀ (l : List ℚ) (a0 r : ℚ),
    determineAfterPriority l (some a0) = some r →
    r = a0 ∨ ∃ q ∈ l, r = q - 1/10 := by
  intro l
  induction l with
  | nil =>
    intro a0 r h
    simp only [determineAfterPriority, Option.some_inj] at h
    exact Or.inl h.symm
  | cons p rest ih =>
    intro a0 r h
    unfold determineAfterPriority at h
    by_cases hc : a0 ≥ p
    · simp only [hc, if_true] at h
      rcases ih (p - 1/10) r h with h1 | ⟨q, hq, h2⟩
      · exact Or.inr ⟨p, List.mem_cons_self p rest, h1⟩
      · exact Or.inr ⟨q, List.mem_cons_of_mem p hq, h2⟩
    · simp only [hc, if_false] at h
      rcases ih a0 r h with h1 | ⟨q, hq, h2⟩
      · exact Or.inl h1
      · exact Or.inr ⟨q, List.mem_cons_of_mem p hq, h2⟩

/-- Starting from a defined accumulator, the before-scan always produces a
value. -/
theorem dBP_isSome : ∀ (l : List ℚ) (b0 : ℚ),
    (determineBeforePriority l (some b0)).isSome = true := by
  intro l
  induction l with
  | nil => intro b0; rfl
  | cons p rest ih =>
    intro b0
    unfold determineBeforePriority
    by_cases h : b0 ≤ p <;> simp only [h, if_true, if_false] <;> apply ih

/-- The before-scan never decreases the accumulator. -/
theorem dBP_ge : ∀ (l : List ℚ) (b0 r : ℚ),
    determineBeforePriority l (some b0) = some r → b0 ≤ r := by
  intro l
  induction l with
  | nil =>
    intro b0 r h
    simp only [determineBeforePriority, Option.some_inj] at h
    exact le_of_eq h
  | cons p rest ih =>
    intro b0 r h
    unfold determineBeforePriority at h
    by_cases hc : b0 ≤ p
    · simp only [hc, if_true] at h
      have := ih (p + 1/10) r h
      linarith
    · simp only [hc, if_false] at h
      exact ih b0 r h

/-- The before-scan result is strictly above every scanned priority. -/
theorem dBP_gt : ∀ (l : List ℚ) (b0 r : ℚ),
    determineBeforePriority l (some b0) = some r → ∀ q ∈ l, q < r := by
  intro l
  induction l with
  | nil => intro b0 r _ q hq; simp at hq
  | cons p rest ih =>
    intro b0 r h q hq
    unfold determineBeforePriority at h
    rcases List.mem_cons.mp hq with hq | hq
    · subst hq
      by_cases hc : b0 ≤ q
      · simp only [hc, if_true] at h
        have := dBP_ge rest (q + 1/10) r h
        linarith
      · simp only [hc, if_false] at h
        have := dBP_ge rest b0 r h
        push_neg at hc
        linarith
    · by_cases hc : b0 ≤ p
      · simp only [hc, if_true] at h
        exact ih (p + 1/10) r h q hq
      · simp only [hc, if_false] at h
        exact ih b0 r h q hq

/-- The before-scan result is either the start value or 0.1 above one of
the scanned priorities. -/
theorem dBP_form : ∀ (l : List ℚ) (b0 r : ℚ),
    determineBeforePriority l (some b0) = some r →
    r = b0 ∨ ∃ q ∈ l, r = q + 1/10 := by
  intro l
  induction l with
  | nil =>
    intro b0 r h
    simp only [determineBeforePriority, Option.some_inj] at h
    exact Or.inl h.symm
  | cons p rest ih =>
    intro b0 r h
    unfold determineBeforePriority at h
    by_cases hc : b0 ≤ p
    · simp only [hc, if_true] at h
      rcases ih (p + 1/10) r h with h1 | ⟨q, hq, h2⟩
      · exact Or.inr ⟨p, List.mem_cons_self p rest, h1⟩
      · exact Or.inr ⟨q, List.mem_cons_of_mem p hq, h2⟩
    · simp only [hc, if_false] at h
      rcases ih b0 r h with h1 | ⟨q, hq, h2⟩
      · exact Or.inl h1
      · exact Or.inr ⟨q, List.mem_cons_of_mem p hq, h2⟩

end Psema

namespace Psema

/-- C4 (amended): each `after`/`before` reference set yields a bound that
is strictly on the required side of *every* referenced priority and
exactly 0.1 away from one of them (hence within 0.1 of the min/max — but
not in general equal to min − 0.1 / max + 0.1, since the scan is
order-dependent; see `claim4_counterexample`).  The bounds combine with
JavaScript truthiness: only when both bounds are derived *and nonzero*
does the constructor take the midpoint, raising the ordering error when
the lower bound exceeds the upper; a derived nonzero single bound becomes
the priority when the other is undefined or zero; otherwise the priority
is 0. -/
theorem claim4_priority_derivation (after before : List ℚ) :
    (after ≠ [] → (determineAfterPriority after none).isSome = true)
    ∧ (before ≠ [] → (determineBeforePriority before none).isSome = true)
    ∧ (∀ a, determineAfterPriority after none = some a →
        (∀ p ∈ after, a < p) ∧ ∃ p ∈ after, a = p - 1/10)
    ∧ (∀ b, determineBeforePriority before none = some b →
        (∀ p ∈ before, p < b) ∧ ∃ p ∈ before, b = p + 1/10)
    ∧ (∀ a b, determineAfterPriority after none = some a →
        determineBeforePriority before none = some b → a ≠ 0 → b ≠ 0 →
        (a ≤ b → systemPriority after before = .ok ((a + b) * (1/2)))
        ∧ (b < a → systemPriority after before
            = .error "Check your system priority, because something is wrong."))
    ∧ (∀ a, determineAfterPriority after none = some a → a ≠ 0 →
        jsTruthy (determineBeforePriority before none) = false →
        systemPriority after before = .ok a)
    ∧ (∀ b, determineBeforePriority before none = some b → b ≠ 0 →
        jsTruthy (determineAfterPriority after none) = false →
        systemPriority after before = .ok b)
    ∧ (jsTruthy (determineAfterPriority after none) = false →
        jsTruthy (determineBeforePriority before none) = false →
        systemPriority after before = .ok 0) := by
  refine ⟨?_, ?_, ?_, ?_, ?_, ?_, ?_, ?_⟩
  · intro h
    match after with
    | [] => exact absurd rfl h
    | p :: rest =>
      show (determineAfterPriority rest (some (p - 1/10))).isSome = true
      exact dAP_isSome rest (p - 1/10)
  · intro h
    match before with
    | [] => exact absurd rfl h
    | p :: rest =>
      show (determineBeforePriority rest (some (p + 1/10))).isSome = true
      exact dBP_isSome rest (p + 1/10)
  · intro a ha
    match after with
    | [] => simp [determineAfterPriority] at ha
    | p :: rest =>
      replace ha : determineAfterPriority rest (some (p - 1/10)) = some a := ha
      constructor
      · intro q hq
        rcases List.mem_cons.mp hq with hq | hq
        · subst hq
          have := dAP_le rest (q - 1/10) a ha
          linarith
        · exact dAP_lt rest (p - 1/10) a ha q hq
      · rcases dAP_form rest (p - 1/10) a ha with h1 | ⟨q, hq, h2⟩
        · exact ⟨p, List.mem_cons_self p rest, h1⟩
        · exact ⟨q, List.mem_cons_of_mem p hq, h2⟩
  · intro b hb
    match before with
    | [] => simp [determineBeforePriority] at hb
    | p :: rest =>
      replace hb : determineBeforePriority rest (some (p + 1/10)) = some b := hb
      constructor
      · intro q hq
        rcases List.mem_cons.mp hq with hq | hq
        · subst hq
          have := dBP_ge rest (q + 1/10) b hb
          linarith
        · exact dBP_gt rest (p + 1/10) b hb q hq
      · rcases dBP_form rest (p + 1/10) b hb with h1 | ⟨q, hq, h2⟩
        · exact ⟨p, List.mem_cons_self p rest, h1⟩
        · exact ⟨q, List.mem_cons_of_mem p hq, h2⟩
  · intro a b ha hb ha0 hb0
    constructor
    · intro hab
      simp [systemPriority, ha, hb, jsTruthy, ha0, hb0, not_lt.mpr hab]
    · intro hba
      simp [systemPriority, ha, hb, jsTruthy, ha0, hb0, hba]
  · intro a ha ha0 hfb
    unfold systemPriority
    dsimp only
    rw [ha, hfb]
    simp [jsTruthy, ha0]
  · intro b hb hb0 hfa
    unfold systemPriority
    dsimp only
    rw [hb, hfa]
    simp [jsTruthy, hb0]
  · intro hfa hfb
    unfold systemPriority
    dsimp only
    rw [hfa, hfb]
    simp

end Psema

namespace Psema

/-- The frozen C4 fails on the code in three ways.  (1) The after-scan is
order-dependent, not `min − 0.1`: for referenced priorities `[5, 4.95]`
the derived priority is `4.9`, not `4.95 − 0.1 = 4.85`.  (2) When the
after-bound is `0` (from a referenced priority `0.1`) it is falsy, so
with `before = [5]` the code returns the before-bound `5.1` instead of
the claimed midpoint `(0 + 5.1)/2`.  (3) For `after = [0.1]`,
`before = [-5]` the lower bound `0` exceeds the upper bound `−4.9`, yet
no error is raised — the result is `.ok (−4.9)`. -/
theorem claim4_counterexample :
    systemPriority [5, 99/20] [] = .ok (49/10)
    ∧ ((49:ℚ)/10) ≠ 99/20 - 1/10
    ∧ systemPriority [1/10] [5] = .ok (51/10)
    ∧ ((51:ℚ)/10) ≠ (0 + 51/10) * (1/2)
    ∧ systemPriority [1/10] [-5] = .ok (-49/10) := by
  refine ⟨?_, by norm_num, ?_, by norm_num, ?_⟩
  · norm_num [systemPriority, determineAfterPriority, determineBeforePriority,
      jsTruthy]
  · norm_num [systemPriority, determineAfterPriority, determineBeforePriority,
      jsTruthy]
  · norm_num [systemPriority, determineAfterPriority, determineBeforePriority,
      jsTruthy]

/-- Closed instance of the amended priority theorem: the bound derived
from `after = [5, 4.95]` is strictly below both priorities and 0.1 below
one of them. -/
theorem claim4_witness :
    (∀ p ∈ ([5, 99/20] : List ℚ), (49:ℚ)/10 < p)
    ∧ ∃ p ∈ ([5, 99/20] : List ℚ), (49:ℚ)/10 = p - 1/10 :=
  (claim4_priority_derivation [5, 99/20] []).2.2.1 (49/10)
    (by norm_num [determineAfterPriority])

end Psema

namespace Psema

/-- The tail scan counts exactly the length left after dropping the
strictly-greater-priority suffix (scanned from the tail). -/
theorem insertIndexRev_eq (p : ℚ) (r : List Sys) :
    insertIndexRev p r
      = (r.dropWhile (fun x => decide (p < x.priority))).length := by
  induction r with
  | nil => rfl
  | cons x xs ih =>
    by_cases hx : x.priority ≤ p
    · have : (decide (p < x.priority)) = false := by simp [not_lt.mpr hx]
      simp [insertIndexRev, hx, List.dropWhile_cons, this]
    · have hlt : p < x.priority := lt_of_not_ge hx
      have : (decide (p < x.priority)) = true := by simp [hlt]
      simp [insertIndexRev, hx, List.dropWhile_cons, this, ih]

/-- A list whose members all satisfy the predicate is its own
`takeWhile`. -/
theorem takeWhile_all {α : Type} (q : α → Bool) :
    ∀ l : List α, (∀ x ∈ l, q x = true) → l.takeWhile q = l := by
  intro l
  induction l with
  | nil => intro _; rfl
  | cons a as ih =>
    intro h
    simp [List.takeWhile_cons, h a (by simp), ih (fun x hx => h x (by simp [hx]))]

/-- Appending a failing element does not change `takeWhile`. -/
theorem takeWhile_append_singleton_of_neg {α : Type} (q : α → Bool) (y : α)
    (hy : q y = false) :
    ∀ l : List α, (l ++ [y]).takeWhile q = l.takeWhile q := by
  intro l
  induction l with
  | nil => simp [List.takeWhile_cons, hy]
  | cons a as ih =>
    by_cases ha : q a = true
    · simp [List.takeWhile_cons, ha, ih]
    · have ha' : q a = false := by simpa using ha
      simp [List.takeWhile_cons, ha']

/-- On a sorted list, dropping from the reversed list every system of
priority strictly above `p` leaves exactly the reversed `≤ p` prefix. -/
theorem sorted_rev_dropWhile (p : ℚ) :
    ∀ l : List Sys, List.Pairwise sysLe l →
    l.reverse.dropWhile (fun x => decide (p < x.priority))
      = (l.takeWhile (fun x => decide (x.priority ≤ p))).reverse := by
  intro l
  induction l using List.reverseRecOn with
  | nil => intro _; rfl
  | append_singleton ys y ih =>
    intro hs
    have hys : List.Pairwise sysLe ys := (List.pairwise_append.mp hs).1
    have hcross : ∀ a ∈ ys, sysLe a y := fun a ha =>
      (List.pairwise_append.mp hs).2.2 a ha y (by simp)
    rw [List.reverse_append, List.reverse_singleton, List.singleton_append]
    by_cases hy : y.priority ≤ p
    · have hρ : (decide (p < y.priority)) = false := by simp [not_lt.mpr hy]
      rw [List.dropWhile_cons, hρ]
      have hall : ∀ x ∈ ys ++ [y], (decide (x.priority ≤ p)) = true := by
        intro x hx
        rcases List.mem_append.mp hx with hx | hx
        · have : x.priority ≤ y.priority := hcross x hx
          simp [le_trans this hy]
        · simp at hx
          subst hx
          simp [hy]
      rw [takeWhile_all _ (ys ++ [y]) hall, List.reverse_append]
      rfl
    · have hρ : (decide (p < y.priority)) = true := by
        simp [lt_of_not_ge hy]
      have hπ : (decide (y.priority ≤ p)) = false := by simp [hy]
      rw [List.dropWhile_cons, hρ, ih hys,
        takeWhile_append_singleton_of_neg _ y hπ]
      simp

/-- Splicing at the length of the left part inserts between the parts. -/
theorem spliceInsert_at_length (s : Sys) :
    ∀ (a b : List Sys), spliceInsert a.length s (a ++ b) = a ++ s :: b := by
  intro a
  induction a with
  | nil => intro b; rfl
  | cons x xs ih => intro b; simp [spliceInsert, ih b]

/-- Every member of a `takeWhile` satisfies the predicate. -/
theorem mem_takeWhile {α : Type} (q : α → Bool) :
    ∀ (l : List α) (x : α), x ∈ l.takeWhile q → q x = true := by
  intro l
  induction l with
  | nil => intro x hx; simp at hx
  | cons a as ih =>
    intro x hx
    rw [List.takeWhile_cons] at hx
    by_cases ha : q a = true
    · rw [ha] at hx
      simp only [if_true] at hx
      rcases List.mem_cons.mp hx with hx | hx
      · subst hx; exact ha
      · exact ih x hx
    · have ha' : q a = false := by simpa using ha
      rw [ha'] at hx
      simp at hx

/-- On a sorted list, every system left after dropping the `≤ p` prefix
has priority strictly above `p`. -/
theorem sorted_mem_dropWhile (p : ℚ) :
    ∀ l : List Sys, List.Pairwise sysLe l →
    ∀ x ∈ l.dropWhile (fun z => decide (z.priority ≤ p)), p < x.priority := by
  intro l
  induction l with
  | nil => intro _ x hx; simp at hx
  | cons y ys ih =>
    intro hs x hx
    rw [List.dropWhile_cons] at hx
    by_cases hy : y.priority ≤ p
    · rw [if_pos (by simp [hy])] at hx
      exact ih (List.Pairwise.of_cons hs) x hx
    · rw [if_neg (by simp [hy])] at hx
      rcases List.mem_cons.mp hx with hx | hx
      · subst hx; exact lt_of_not_ge hy
      · have : sysLe y x := (List.pairwise_cons.mp hs).1 x hx
        exact lt_of_lt_of_le (lt_of_not_ge hy) this

/-- On a sorted list, `activate` splices the new system exactly after the
`≤ priority` prefix (so after every already-listed system of equal
priority) and returns `true`. -/
theorem activate_split (st : Sched) (s : Sys)
    (hs : List.Pairwise sysLe st.systems) (hna : s.id ∉ st.active) :
    (st.activate s).1.systems
      = st.systems.takeWhile (fun x => decide (x.priority ≤ s.priority))
        ++ s :: st.systems.dropWhile (fun x => decide (x.priority ≤ s.priority))
    ∧ (st.activate s).2 = true := by
  unfold Sched.activate
  rw [if_neg hna]
  refine ⟨?_, rfl⟩
  show spliceInsert (insertIndex st.systems s.priority) s st.systems = _
  rw [insertIndex, insertIndexRev_eq, sorted_rev_dropWhile s.priority _ hs,
    List.length_reverse]
  have hsplit := spliceInsert_at_length s
    (st.systems.takeWhile (fun x => decide (x.priority ≤ s.priority)))
    (st.systems.dropWhile (fun x => decide (x.priority ≤ s.priority)))
  rw [List.takeWhile_append_dropWhile] at hsplit
  exact hsplit

/-- Inserting via `activate` preserves sortedness. -/
theorem activate_pairwise (st : Sched) (s : Sys)
    (hs : List.Pairwise sysLe st.systems) :
    List.Pairwise sysLe (st.activate s).1.systems := by
  by_cases hna : s.id ∈ st.active
  · unfold Sched.activate
    rw [if_pos hna]
    exact hs
  · rw [(activate_split st s hs hna).1]
    rw [List.pairwise_append]
    refine ⟨hs.sublist (List.takeWhile_sublist _), ?_, ?_⟩
    · rw [List.pairwise_cons]
      refine ⟨?_, hs.sublist (List.dropWhile_sublist _)⟩
      intro x hx
      exact le_of_lt (sorted_mem_dropWhile s.priority _ hs x hx)
    · intro a ha b hb
      have hap : a.priority ≤ s.priority := by
        have := mem_takeWhile _ _ a ha
        simpa using this
      rcases List.mem_cons.mp hb with hb | hb
      · subst hb; exact hap
      · have : s.priority < b.priority :=
          sorted_mem_dropWhile s.priority _ hs b hb
        exact le_of_lt (lt_of_le_of_lt hap this)

/-- Every scheduler step preserves sortedness. -/
theorem step_pairwise (st : Sched) (op : SchedOp)
    (hs : List.Pairwise sysLe st.systems) :
    List.Pairwise sysLe (st.step op).systems := by
  cases op with
  | act s => exact activate_pairwise st s hs
  | deact s => exact hs.sublist (List.eraseP_sublist _)

/-- Sortedness is preserved along any operation sequence. -/
theorem foldl_step_pairwise :
    ∀ (ops : List SchedOp) (st : Sched), List.Pairwise sysLe st.systems →
    List.Pairwise sysLe ((ops.foldl Sched.step st).systems) := by
  intro ops
  induction ops with
  | nil => intro st hs; exact hs
  | cons op rest ih =>
    intro st hs
    exact ih (st.step op) (step_pairwise st op hs)

end Psema

namespace Psema

/-- C7: starting from the empty world, the system list stays sorted in
non-decreasing priority order under every sequence of `activate` /
`deactivate` operations; on a sorted list `activate` splices the system
right after the `≤ priority` prefix — i.e. after all already-listed
systems of equal priority (stable ties) — returning `true`, is a no-op
returning `false` when the system is already active; and creating systems
with priorities `[5, 1, 3]` yields the execution order `[1, 3, 5]`. -/
theorem claim7_scheduler_order :
    (∀ ops : List SchedOp, List.Pairwise sysLe (Sched.run ops).systems)
    ∧ (∀ (st : Sched) (s : Sys), List.Pairwise sysLe st.systems →
        s.id ∉ st.active →
        (st.activate s).1.systems
          = st.systems.takeWhile (fun x => decide (x.priority ≤ s.priority))
            ++ s :: st.systems.dropWhile
                (fun x => decide (x.priority ≤ s.priority))
        ∧ (st.activate s).2 = true)
    ∧ (∀ (st : Sched) (s : Sys), s.id ∈ st.active →
        st.activate s = (st, false))
    ∧ (Sched.run [.act ⟨0, 5⟩, .act ⟨1, 1⟩, .act ⟨2, 3⟩]).systems.map
        Sys.priority = [1, 3, 5] := by
  refine ⟨?_, activate_split, ?_, rfl⟩
  · intro ops
    exact foldl_step_pairwise ops { systems := [], active := [] }
      (List.Pairwise.nil)
  · intro st s hin
    unfold Sched.activate
    rw [if_pos hin]

/-- Closed instance of the scheduler theorem: activating a system whose
flag is already set is a no-op returning `false`, and activating a
fresh system into a sorted singleton splices it stably. -/
theorem claim7_witness :
    (Sched.activate { systems := [], active := [7] } ⟨7, 2⟩
        = ({ systems := [], active := [7] }, false))
    ∧ ((Sched.activate { systems := [⟨0, 1⟩], active := [0] } ⟨1, 1⟩).1.systems
        = [⟨0, 1⟩, ⟨1, 1⟩]) := by
  constructor
  · exact claim7_scheduler_order.2.2.1 { systems := [], active := [7] }
      ⟨7, 2⟩ (by simp)
  · have h := (claim7_scheduler_order.2.1 { systems := [⟨0, 1⟩], active := [0] }
      ⟨1, 1⟩ (by simp [sysLe]) (by simp)).1
    rw [h]
    rfl

end Psema
